import Mathlib

set_option maxRecDepth 8000

namespace Tix

/-- JSON values as produced by json.loads over the repository's storage files
(the files written by the program only ever hold null, booleans, integers,
strings, arrays and objects). -/
inductive JVal where
  | null
  | bool (b : Bool)
  | int (n : Int)
  | str (s : String)
  | arr (elems : List JVal)
  | obj (fields : List (String × JVal))

/-- Python exceptions that the storage-layer code can raise. -/
inductive PyErr where
  | nameError (name : String)
  | typeError
  | valueError
  | fileNotFound
  | jsonDecodeError
deriving DecidableEq, Repr

/-- The observable content of one backing file: absent, present but not
parsable as JSON, or present with a parsed JSON value. -/
inductive FileContent where
  | missing
  | invalid
  | parsed (v : JVal)

/-- `path.read_text()` followed by `json.loads`: a missing file raises
FileNotFoundError, unparsable text raises json.JSONDecodeError. -/
def readText_loads : FileContent → Except PyErr JVal
  | .missing => .error .fileNotFound
  | .invalid => .error .jsonDecodeError
  | .parsed v => .ok v

/-- First-occurrence lookup in a Python dict rendered as an ordered
association list (json.loads and the code itself never produce duplicate
keys). -/
def lookupKey : List (String × JVal) → String → Option JVal
  | [], _ => none
  | (k, v) :: rest, key => if k = key then some v else lookupKey rest key

def hasKey (d : List (String × JVal)) (key : String) : Bool :=
  (lookupKey d key).isSome

/-- Python dict item assignment `d[key] = v`: overwrite in place when the key
exists, append otherwise. -/
def dictSet : List (String × JVal) → String → JVal → List (String × JVal)
  | [], key, v => [(key, v)]
  | (k, v') :: rest, key, v =>
      if k = key then (key, v) :: rest else (k, v') :: dictSet rest key v

/-- Python `isinstance(v, int)` semantics on JSON values: booleans count as
integers (bool is a subclass of int), and their integer value is 0 or 1. -/
def pyIntOf : JVal → Option Int
  | .int n => some n
  | .bool b => some (if b then 1 else 0)
  | _ => none

/-- Python `v == n` for an int literal `n` on the right. -/
def pyEqInt (v : JVal) (n : Int) : Bool :=
  match pyIntOf v with
  | some m => m = n
  | none => false

/-- Python `v == s` for a str literal `s` on the right. -/
def pyEqStr (v : JVal) (s : String) : Bool :=
  match v with
  | .str t => t = s
  | _ => false

/-- Python truthiness of a JSON value (`if v:`). -/
def isTruthy : JVal → Bool
  | .null => false
  | .bool b => b
  | .int n => n != 0
  | .str s => s != ""
  | .arr l => !l.isEmpty
  | .obj d => !d.isEmpty

/-- Python iteration over a JSON value: lists yield their elements, dicts
their keys, strings their characters; other values raise TypeError. -/
def jIter : JVal → Except PyErr (List JVal)
  | .arr l => .ok l
  | .obj d => .ok (d.map (fun kv => .str kv.1))
  | .str s => .ok (s.data.map (fun c => .str c.toString))
  | _ => .error .typeError

/-- Eager left-to-right list comprehension `[f x for x in l]`, propagating the
first exception. -/
def mapEx {α β : Type} (f : α → Except PyErr β) : List α → Except PyErr (List β)
  | [] => .ok []
  | x :: rest =>
    match f x with
    | .error e => .error e
    | .ok y =>
      match mapEx f rest with
      | .error e => .error e
      | .ok ys => .ok (y :: ys)

/-- The Task dataclass of src/tix/models.py. Field values are the raw JSON
values Python stores in the (unvalidated) attributes. -/
structure Task where
  id : JVal
  text : JVal
  priority : JVal
  completed : JVal
  created_at : JVal
  completed_at : JVal
  tags : JVal
  attachments : JVal
  links : JVal
  is_global : JVal

/-- The keyword names accepted by `Task(**data)`. -/
def taskFieldNames : List String :=
  ["id", "text", "priority", "completed", "created_at", "completed_at",
   "tags", "attachments", "links", "is_global"]

/-- `Task.to_dict` of src/tix/models.py, in source field order. -/
def task_to_dict (t : Task) : JVal :=
  .obj [("id", t.id), ("text", t.text), ("priority", t.priority),
        ("completed", t.completed), ("created_at", t.created_at),
        ("completed_at", t.completed_at), ("tags", t.tags),
        ("attachments", t.attachments), ("links", t.links),
        ("is_global", t.is_global)]

/-- `Task.from_dict` of src/tix/models.py: backfills the newer optional keys,
then calls `Task(**data)` — unknown keys or a missing required key (id, text)
raise TypeError; absent optional fields take the dataclass defaults, with
`created_at` stamped from the current clock `now`. -/
def task_from_dict (now : String) (v : JVal) : Except PyErr Task :=
  match v with
  | .obj d =>
    let d := if hasKey d "attachments" then d else dictSet d "attachments" (.arr [])
    let d := if hasKey d "links" then d else dictSet d "links" (.arr [])
    let d := if hasKey d "is_global" then d else dictSet d "is_global" (.bool false)
    if d.all (fun kv => kv.1 ∈ taskFieldNames) then
      match lookupKey d "id", lookupKey d "text" with
      | some i, some tx =>
        .ok { id := i, text := tx,
              priority := (lookupKey d "priority").getD (.str "medium"),
              completed := (lookupKey d "completed").getD (.bool false),
              created_at := (lookupKey d "created_at").getD (.str now),
              completed_at := (lookupKey d "completed_at").getD .null,
              tags := (lookupKey d "tags").getD (.arr []),
              attachments := (lookupKey d "attachments").getD (.arr []),
              links := (lookupKey d "links").getD (.arr []),
              is_global := (lookupKey d "is_global").getD (.bool false) }
      | _, _ => .error .typeError
    else .error .typeError
  | _ => .error .typeError

/-- The filesystem slice the task storage touches: the default context's
tasks.json plus the contexts/<name>.json files, addressed by context name. -/
structure TixFs where
  dflt : FileContent
  ctxs : List (String × FileContent)

def getAssoc : List (String × FileContent) → String → Option FileContent
  | [], _ => none
  | (k, v) :: rest, key => if k = key then some v else getAssoc rest key

def setAssoc : List (String × FileContent) → String → FileContent → List (String × FileContent)
  | [], key, v => [(key, v)]
  | (k, v') :: rest, key, v =>
      if k = key then (key, v) :: rest else (k, v') :: setAssoc rest key v

/-- Content of the storage file a store scoped to `ctx` reads and writes
(tasks.json for the default context, contexts/<ctx>.json otherwise). -/
def fileFor (fs : TixFs) (ctx : String) : FileContent :=
  if ctx = "default" then fs.dflt else (getAssoc fs.ctxs ctx).getD .missing

def setFile (fs : TixFs) (ctx : String) (c : FileContent) : TixFs :=
  if ctx = "default" then { fs with dflt := c }
  else { fs with ctxs := setAssoc fs.ctxs ctx c }

/-- The schema-default envelope `{"next_id": 1, "tasks": []}`. -/
def emptyEnv : JVal := .obj [("next_id", .int 1), ("tasks", .arr [])]

/-- Is this entry's "id" a valid positive integer in the sense of
`"id" in t and isinstance(t["id"], int) and t["id"] > 0`? -/
def validId (d : List (String × JVal)) : Bool :=
  match lookupKey d "id" with
  | none => false
  | some w =>
    match pyIntOf w with
    | some n => n > 0
    | none => false

/-- Integer value of an entry's "id" key (0 when absent or non-numeric; only
evaluated on entries whose id has just been validated or assigned). -/
def idIntOf (d : List (String × JVal)) : Int :=
  match lookupKey d "id" with
  | some w => (pyIntOf w).getD 0
  | none => 0

/-- The legacy-upgrade loop of TaskStorage._read_data: walk the bare list with
a 1-based index, skip non-dict entries, assign the index as id where the id is
missing or not a valid positive integer, and track the running maximum id. -/
def upgradeLoop : List JVal → Int → Int → List JVal → Int × List JVal
  | [], _, max_id, upgraded => (max_id, upgraded)
  | t :: rest, i, max_id, upgraded =>
    match t with
    | .obj d =>
      let d' := if validId d then d else dictSet d "id" (.int i)
      upgradeLoop rest (i + 1) (max max_id (idIntOf d')) (upgraded ++ [.obj d'])
    | _ => upgradeLoop rest (i + 1) max_id upgraded

/-- TaskStorage._read_data: parse the file; upgrade a bare legacy array to the
envelope and persist it (second component: the value written back, if any);
hand back a well-shaped envelope dict unchanged; recover silently to the
schema default on a missing file, unparsable JSON or any other shape. -/
def ts_read_data (c : FileContent) : JVal × Option JVal :=
  match readText_loads c with
  | .error _ => (emptyEnv, none)
  | .ok raw =>
    match raw with
    | .arr l =>
      let p := upgradeLoop l 1 0 []
      let up : JVal := .obj [("next_id", .int (p.1 + 1)), ("tasks", .arr p.2)]
      (up, some up)
    | .obj d =>
      if hasKey d "tasks" && hasKey d "next_id" then (.obj d, none)
      else (emptyEnv, none)
    | _ => (emptyEnv, none)

/-- Apply the optional write-back of a read to the store's own file. -/
def applyWrite (fs : TixFs) (ctx : String) : Option JVal → TixFs
  | some v => setFile fs ctx (.parsed v)
  | none => fs

/-- `_ensure_file` of a store scoped to the default context: create the file
with the schema default when it does not exist. -/
def ensure_default (fs : TixFs) : TixFs :=
  match fileFor fs "default" with
  | .missing => setFile fs "default" (.parsed emptyEnv)
  | _ => fs

/-- `data["tasks"]` on the dict returned by _read_data (every branch of
_read_data yields a dict carrying the key). -/
def jTasks (data : JVal) : JVal :=
  match data with
  | .obj d => (lookupKey d "tasks").getD .null
  | _ => .null

/-- `data["next_id"]` on the dict returned by _read_data. -/
def jNextId (data : JVal) : JVal :=
  match data with
  | .obj d => (lookupKey d "next_id").getD .null
  | _ => .null

/-- The try-block of TaskStorage.load_tasks run by a store scoped outside the
default context: construct a default-scoped store (whose `_ensure_file`
creates a missing tasks.json), read its envelope (applying any legacy-upgrade
write-back), deserialize its entries and append those whose is_global
attribute is truthy; any exception is swallowed (`except: pass`) but the file
writes performed before it persist. -/
def merge_default (now : String) (tasks : List Task) (fs1 : TixFs) :
    Except PyErr (List Task) × TixFs :=
  let fs2 := ensure_default fs1
  let q := ts_read_data (fileFor fs2 "default")
  let fs3 := applyWrite fs2 "default" q.2
  match jIter (jTasks q.1) with
  | .error _ => (.ok tasks, fs3)
  | .ok ditems =>
    match mapEx (task_from_dict now) ditems with
    | .error _ => (.ok tasks, fs3)
    | .ok dtasks =>
      (.ok (tasks ++ dtasks.filter (fun t => isTruthy t.is_global)), fs3)

/-- TaskStorage.load_tasks: read the local file (applying any legacy-upgrade
write-back), deserialize each entry, and — outside the default context — merge
in the default file's global tasks through `merge_default`. -/
def load_tasks (now ctx : String) (fs : TixFs) : Except PyErr (List Task) × TixFs :=
  let p := ts_read_data (fileFor fs ctx)
  let fs1 := applyWrite fs ctx p.2
  match jIter (jTasks p.1) with
  | .error e => (.error e, fs1)
  | .ok items =>
    match mapEx (task_from_dict now) items with
    | .error e => (.error e, fs1)
    | .ok tasks =>
      if ctx = "default" then (.ok tasks, fs1)
      else merge_default now tasks fs1

/-- TaskStorage.save_tasks: re-read the local envelope, strip tasks whose
is_global attribute is truthy when the store is not scoped to the default
context, replace the "tasks" entry and write the file back. -/
def save_tasks (ctx : String) (tasks : List Task) (fs : TixFs) : TixFs :=
  let p := ts_read_data (fileFor fs ctx)
  let fs1 := applyWrite fs ctx p.2
  let tasks' := if ctx ≠ "default" then tasks.filter (fun t => ! isTruthy t.is_global) else tasks
  let data' : JVal :=
    match p.1 with
    | .obj d => .obj (dictSet d "tasks" (.arr (tasks'.map task_to_dict)))
    | v => v
  setFile fs1 ctx (.parsed data')

/-- TaskStorage.delete_task: load the merged task list, drop every task whose
id equals `task_id`, and persist through save_tasks exactly when the list got
shorter, reporting whether a removal occurred. -/
def delete_task (now ctx : String) (task_id : Int) (fs : TixFs) : Except PyErr Bool × TixFs :=
  match load_tasks now ctx fs with
  | (.error e, fs1) => (.error e, fs1)
  | (.ok tasks, fs1) =>
    let new_tasks := tasks.filter (fun t => ! pyEqInt t.id task_id)
    if new_tasks.length < tasks.length then (.ok true, save_tasks ctx new_tasks fs1)
    else (.ok false, fs1)

/-- TaskStorage.add_task as written in src/tix/storage/json_storage.py line
106-121: it reads the envelope (applying any legacy-upgrade write-back), binds
`new_id = data["next_id"]`, and then evaluates
`Task(id=new_id, text=text, priority=priority, tags=tags or [], due=duek,
is_global=is_global)` — the name `duek` is bound nowhere in the module, so the
lookup raises NameError on every call (and the Task dataclass has no `due`
parameter either); the redirect-to-default, append, next_id increment and
write below that line are unreachable. -/
def add_task (ctx : String) (text : String) (priority : String)
    (tags : List String) (is_global : Bool) (fs : TixFs) :
    Except PyErr Task × TixFs :=
  let p := ts_read_data (fileFor fs ctx)
  let fs1 := applyWrite fs ctx p.2
  let new_id := jNextId p.1
  let _ := new_id
  let _ := (text, priority, tags, is_global)
  (.error (.nameError "duek"), fs1)

/-- The parsed history file `{"undo": [...], "redo": [...]}` of
src/tix/storage/history.py. The manager never inspects the operation dicts it
stores, so the entry type is a parameter. -/
structure HistState (α : Type) where
  undo : List α
  redo : List α
deriving DecidableEq, Repr

/-- HistoryManager._read_data: a bare `json.loads(read_text())` with no
exception handling — a missing file or unparsable JSON propagates to the
caller. -/
def hist_read_data (c : FileContent) : Except PyErr JVal :=
  readText_loads c

/-- HistoryManager._ensure_file: pre-create a missing history file with empty
stacks at construction time (an existing file is left alone, parsable or
not). -/
def hist_ensure_file (c : FileContent) : FileContent :=
  match c with
  | .missing => .parsed (.obj [("undo", .arr []), ("redo", .arr [])])
  | c => c

/-- HistoryManager.record: append the operation to the undo stack, `pop(0)`
the oldest entry when the stack exceeds the limit, clear the redo stack, and
persist the result. -/
def record {α : Type} (limit : Nat) (op : α) (s : HistState α) : HistState α :=
  let u := s.undo ++ [op]
  let u := if limit < u.length then u.drop 1 else u
  { undo := u, redo := [] }

/-- HistoryManager.pop_undo: pop the newest undo entry, push it onto the redo
stack, persist, and return it (None on an empty undo stack). -/
def pop_undo {α : Type} (s : HistState α) : Option α × HistState α :=
  match s.undo.getLast? with
  | none => (none, s)
  | some op => (some op, { undo := s.undo.dropLast, redo := s.redo ++ [op] })

/-- HistoryManager.pop_redo: pop the newest redo entry, push it onto the undo
stack, persist, and return it (None on an empty redo stack). -/
def pop_redo {α : Type} (s : HistState α) : Option α × HistState α :=
  match s.redo.getLast? with
  | none => (none, s)
  | some op => (some op, { undo := s.undo ++ [op], redo := s.redo.dropLast })

/-- Record a chronological sequence of operations, oldest first. -/
def recordAll {α : Type} (limit : Nat) (ops : List α) (s : HistState α) : HistState α :=
  ops.foldl (fun s op => record limit op s) s

/-- Call pop_undo `n` times, collecting the returned entries in call order. -/
def popUndoTimes {α : Type} : Nat → HistState α → List (Option α) × HistState α
  | 0, s => ([], s)
  | n + 1, s =>
    let p := pop_undo s
    let q := popUndoTimes n p.2
    (p.1 :: q.1, q.2)

/-- The Context dataclass of src/tix/models.py; attribute values are raw JSON
values. -/
structure Context where
  name : JVal
  created_at : JVal
  description : JVal

/-- `Context.to_dict` of src/tix/models.py, in source field order. -/
def context_to_dict (c : Context) : JVal :=
  .obj [("name", c.name), ("created_at", c.created_at), ("description", c.description)]

/-- `Context.from_dict`, i.e. `Context(**data)`: name is required,
`created_at` defaults to the current clock, description to None; unknown keys
raise TypeError. -/
def context_from_dict (now : String) (v : JVal) : Except PyErr Context :=
  match v with
  | .obj d =>
    if d.all (fun kv => kv.1 ∈ ["name", "created_at", "description"]) then
      match lookupKey d "name" with
      | some n =>
        .ok { name := n,
              created_at := (lookupKey d "created_at").getD (.str now),
              description := (lookupKey d "description").getD .null }
      | none => .error .typeError
    else .error .typeError
  | _ => .error .typeError

/-- State of the context registry: the contexts.json file plus the
active_context pointer file (none when the pointer file is absent). -/
structure CtxState where
  file : FileContent
  active : Option String

/-- The registry dict written when the contexts file is absent or corrupt:
`{"contexts": [Context(name="default", description="Default context")]}` with
created_at stamped from the current clock. -/
def defaultRegistry (now : String) : JVal :=
  .obj [("contexts", .arr [context_to_dict
    { name := .str "default", created_at := .str now, description := .str "Default context" }])]

/-- ContextStorage._read_data: return the parsed dict when it carries a
"contexts" key, and silently fall back to the default-only registry on a
missing file, unparsable JSON or any other shape. -/
def ctx_read_data (now : String) (c : FileContent) : JVal :=
  match readText_loads c with
  | .ok (.obj d) => if hasKey d "contexts" then .obj d else defaultRegistry now
  | .ok _ => defaultRegistry now
  | .error _ => defaultRegistry now

/-- `data["contexts"]` on the dict returned by ContextStorage._read_data
(every branch yields a dict carrying the key). -/
def jContexts (data : JVal) : JVal :=
  match data with
  | .obj d => (lookupKey d "contexts").getD .null
  | _ => .null

/-- ContextStorage.load_contexts: deserialize every entry of the registry
dict's "contexts" value. -/
def load_contexts (now : String) (s : CtxState) : Except PyErr (List Context) :=
  match jIter (jContexts (ctx_read_data now s.file)) with
  | .error e => .error e
  | .ok items => mapEx (context_from_dict now) items

/-- ContextStorage.save_contexts: write a fresh
`{"contexts": [to_dict ...]}`. -/
def save_contexts (contexts : List Context) (s : CtxState) : CtxState :=
  { s with file := .parsed (.obj [("contexts", .arr (contexts.map context_to_dict))]) }

/-- ContextStorage.get_context: first registered context whose name compares
equal to `name`. -/
def get_context (now name : String) (s : CtxState) : Except PyErr (Option Context) :=
  match load_contexts now s with
  | .error e => .error e
  | .ok contexts => .ok (contexts.find? (fun c => pyEqStr c.name name))

/-- Python str.strip(): drop leading and trailing whitespace. -/
def pyStrip (s : String) : String :=
  ⟨((s.data.dropWhile Char.isWhitespace).reverse.dropWhile Char.isWhitespace).reverse⟩

/-- ContextStorage.get_active_context: the stripped content of the
active_context file, "default" when the file is absent. -/
def get_active_context (s : CtxState) : String :=
  match s.active with
  | some txt => pyStrip txt
  | none => "default"

/-- ContextStorage.set_active_context: refuse (ValueError) when no registered
context carries the name, otherwise write the name into the pointer file. -/
def set_active_context (now name : String) (s : CtxState) : Except PyErr CtxState :=
  match get_context now name s with
  | .error e => .error e
  | .ok none => .error .valueError
  | .ok (some _) => .ok { s with active := some name }

/-- ContextStorage.delete_context: raise ValueError for "default"; otherwise
filter the registry by name, report false when nothing was removed, and on a
removal persist the rest and reset the active pointer to "default" when it
named the deleted context. -/
def delete_context (now name : String) (s : CtxState) : Except PyErr Bool × CtxState :=
  if name = "default" then (.error .valueError, s)
  else
    match load_contexts now s with
    | .error e => (.error e, s)
    | .ok contexts =>
      let new_contexts := contexts.filter (fun c => ! pyEqStr c.name name)
      if new_contexts.length < contexts.length then
        let s1 := save_contexts new_contexts s
        if get_active_context s1 = name then
          match set_active_context now "default" s1 with
          | .error e => (.error e, s1)
          | .ok s2 => (.ok true, s2)
        else (.ok true, s1)
      else (.ok false, s)

/-- The file content after an optional write-back (none: unchanged). -/
def contentAfter (c : FileContent) : Option JVal → FileContent
  | some v => .parsed v
  | none => c

/-- Specification-side description of the legacy upgrade, position by
position: an entry that already carries a valid positive integer id is kept
verbatim, any other entry gets the (1-based) position assigned as its id. -/
def UpgRel : Int → List JVal → List JVal → Prop
  | _, [], up => up = []
  | i, v :: rest, up =>
    ∃ d up', v = .obj d ∧
      up = (if validId d then JVal.obj d else .obj (dictSet d "id" (.int i))) :: up' ∧
      UpgRel (i + 1) rest up'

/-- The integer id an upgraded entry carries (none when absent or not an
int). -/
def entryId (v : JVal) : Option Int :=
  match v with
  | .obj d =>
    match lookupKey d "id" with
    | some w => pyIntOf w
    | none => none
  | _ => none

/-- An empty default context: tasks.json holds the fresh envelope, no other
context file exists. -/
def fsEmptyDefault : TixFs := ⟨.parsed emptyEnv, []⟩

/-- A default context mid-life: next_id is 3 and one task with id 1 is
stored. -/
def fsMidDefault : TixFs :=
  ⟨.parsed (.obj [("next_id", .int 3),
                  ("tasks", .arr [.obj [("id", .int 1), ("text", .str "a")]])]), []⟩

/-- An empty default context beside an empty "work" context. -/
def fsWork : TixFs := ⟨.parsed emptyEnv, [("work", .parsed emptyEnv)]⟩

/-- A legacy bare-array default file in which an explicit id 2 collides with
the positional id later assigned to an id-less entry. -/
def fsLegacyDup : TixFs :=
  ⟨.parsed (.arr [.obj [("id", .int 2), ("text", .str "a")],
                  .obj [("text", .str "b")]]), []⟩

/-- A well-formed default envelope whose single task entry lacks the
created_at field. -/
def fsNoStamp : TixFs :=
  ⟨.parsed (.obj [("next_id", .int 2),
                  ("tasks", .arr [.obj [("id", .int 1), ("text", .str "a")]])]), []⟩

/-- A registry holding the default context and a "work" context, with "work"
as the active context. -/
def ctxRegWork : CtxState :=
  ⟨.parsed (.obj [("contexts", .arr
      [.obj [("name", .str "default"), ("created_at", .str "D"),
             ("description", .str "Default context")],
       .obj [("name", .str "work"), ("created_at", .str "W"),
             ("description", .null)]])]),
   some "work"⟩

def ctxDefaultRec : Context := ⟨.str "default", .str "D", .str "Default context"⟩

def ctxWorkRec : Context := ⟨.str "work", .str "W", .null⟩

/-- The default-context envelope dict holding one global task with id 7. -/
def gDenv : List (String × JVal) :=
  [("next_id", .int 8),
   ("tasks", .arr [.obj [("id", .int 7), ("text", .str "g"),
                         ("is_global", .bool true)]])]

/-- tasks.json carrying one global task with id 7 beside a "work" context
file with one local task with id 1. -/
def fsGlobalWork : TixFs :=
  ⟨.parsed (.obj gDenv),
   [("work", .parsed (.obj [("next_id", .int 2),
                            ("tasks", .arr [.obj [("id", .int 1),
                                                  ("text", .str "a")]])]))]⟩

/-- The global task of `fsGlobalWork` as deserialized at clock "T". -/
def gTask : Task :=
  ⟨.int 7, .str "g", .str "medium", .bool false, .str "T", .null,
   .arr [], .arr [], .arr [], .bool true⟩

/-- The local "work" task of `fsGlobalWork` as deserialized at clock "T". -/
def locTask : Task :=
  ⟨.int 1, .str "a", .str "medium", .bool false, .str "T", .null,
   .arr [], .arr [], .arr [], .bool false⟩

/-! ### Basic lemmas -/

theorem lookupKey_dictSet_same (d : List (String × JVal)) (k : String) (v : JVal) :
    lookupKey (dictSet d k v) k = some v := by
  induction d with
  | nil => simp [dictSet, lookupKey]
  | cons kv rest ih =>
    by_cases h : kv.1 = k
    · simp [dictSet, h, lookupKey]
    · obtain ⟨k', v'⟩ := kv
      simp only at h
      simp [dictSet, h, lookupKey, ih]

theorem task_from_to (now : String) (t : Task) :
    task_from_dict now (task_to_dict t) = .ok t := rfl

theorem context_from_to (now : String) (c : Context) :
    context_from_dict now (context_to_dict c) = .ok c := rfl

theorem mapEx_mem {α β : Type} (f : α → Except PyErr β) :
    ∀ (l : List α) (l' : List β), mapEx f l = .ok l' →
      ∀ x ∈ l, ∀ y, f x = .ok y → y ∈ l' := by
  intro l
  induction l with
  | nil => intro l' h x hx; cases hx
  | cons a rest ih =>
    intro l' h x hx y hy
    rw [mapEx] at h
    rcases ha : f a with e | b
    · rw [ha] at h; cases h
    · rw [ha] at h
      rcases hr : mapEx f rest with e | bs
      · rw [hr] at h; cases h
      · rw [hr] at h
        cases h
        rcases List.mem_cons.mp hx with hx | hx
        · subst hx; rw [ha] at hy; cases hy; exact List.mem_cons_self _ _
        · exact List.mem_cons_of_mem _ (ih bs hr x hx y hy)

theorem mapEx_map_task (now : String) (ts : List Task) :
    mapEx (task_from_dict now) (ts.map task_to_dict) = .ok ts := by
  induction ts with
  | nil => rfl
  | cons t rest ih => simp [mapEx, task_from_to, ih]

theorem mapEx_map_context (now : String) (cs : List Context) :
    mapEx (context_from_dict now) (cs.map context_to_dict) = .ok cs := by
  induction cs with
  | nil => rfl
  | cons c rest ih => simp [mapEx, context_from_to, ih]

theorem filter_length_lt {β : Type} (p : β → Bool) :
    ∀ (l : List β) (x : β), x ∈ l → p x = false → (l.filter p).length < l.length := by
  intro l
  induction l with
  | nil => intro x hx; cases hx
  | cons a rest ih =>
    intro x hx hpx
    rcases List.mem_cons.mp hx with hx | hx
    · subst hx
      simp only [List.filter_cons, hpx]
      exact Nat.lt_succ_of_le (List.length_filter_le _ _)
    · have := ih x hx hpx
      simp only [List.filter_cons]
      rcases hpa : p a with _ | _
      · simpa using Nat.lt_succ_of_lt this
      · simpa using Nat.succ_lt_succ this

/-! ### C1 -/

/-- C1: the claim says addTask allocates next_id, constructs the Task, appends
it, persists next_id+1 and returns the task (first add to an empty default
context giving id=1, completed=false). The code cannot do any of this: every
add_task call evaluates the undefined name `duek` (json_storage.py line 110)
and raises NameError before reaching the append/persist code, as this
evaluation of the embedded function on the claim's own scenario shows. -/
theorem addTask_buy_milk_raises_nameError :
    add_task "default" "Buy milk" "medium" [] false fsEmptyDefault =
      (.error (.nameError "duek"), fsEmptyDefault) := rfl

/-! ### C2 -/

/-- C2: the claim's id-allocation law is about ids assigned by successive
addTask calls, but no addTask call ever assigns an id: each call raises
NameError on the undefined name `duek` and leaves the file unchanged, as this
evaluation of two successive calls on a mid-life store shows. -/
theorem addTask_sequence_assigns_no_ids :
    add_task "default" "b" "medium" [] false fsMidDefault =
      (.error (.nameError "duek"), fsMidDefault) ∧
    add_task "default" "c" "low" [] false
        (add_task "default" "b" "medium" [] false fsMidDefault).2 =
      (.error (.nameError "duek"), fsMidDefault) := ⟨rfl, rfl⟩

/-! ### C4 -/

/-- C4: the claim's redirect rule (is_global=true from a non-default store
delegates to the default store) lives below json_storage.py line 110 and is
unreachable: the call raises NameError on `duek` first, so no task is written
to either file, as this evaluation from a "work"-scoped store shows. -/
theorem addTask_global_from_work_raises_nameError :
    add_task "work" "Global task" "high" ["work"] true fsWork =
      (.error (.nameError "duek"), fsWork) := rfl

/-! ### C3 -/

/-- C3 counterexample: the claim says the History Log recovers silently from
unparsable file content like the other two stores; in fact
HistoryManager._read_data is a bare json.loads and propagates the
JSONDecodeError to its caller. -/
theorem history_read_propagates_corruption :
    hist_read_data .invalid = .error .jsonDecodeError ∧
    hist_read_data .invalid ≠ .ok (.obj [("undo", .arr []), ("redo", .arr [])]) :=
  ⟨rfl, fun h => Except.noConfusion h⟩

/-- C3 amended: on a missing or unparsable backing file the Task Store and the
Context Registry recover silently to their schema defaults, but the History
Log (which only pre-creates a missing file at construction time) propagates
the read error to the caller. -/
theorem read_recovery_stores_but_not_history (now : String) (c : FileContent)
    (h : c = .missing ∨ c = .invalid) :
    ts_read_data c = (emptyEnv, none) ∧
    ctx_read_data now c = defaultRegistry now ∧
    (∃ e, hist_read_data c = .error e) ∧
    hist_ensure_file .missing = .parsed (.obj [("undo", .arr []), ("redo", .arr [])]) ∧
    hist_ensure_file .invalid = .invalid := by
  rcases h with h | h <;> subst h <;> exact ⟨rfl, rfl, ⟨_, rfl⟩, rfl, rfl⟩

theorem read_recovery_stores_but_not_history_witness :
    ((FileContent.invalid = FileContent.missing ∨ FileContent.invalid = FileContent.invalid) ∧
      (ts_read_data .invalid = (emptyEnv, none) ∧
       ctx_read_data "2024-01-01" .invalid = defaultRegistry "2024-01-01" ∧
       (∃ e, hist_read_data .invalid = .error e) ∧
       hist_ensure_file .missing = .parsed (.obj [("undo", .arr []), ("redo", .arr [])]) ∧
       hist_ensure_file .invalid = .invalid)) :=
  ⟨Or.inr rfl, read_recovery_stores_but_not_history "2024-01-01" .invalid (Or.inr rfl)⟩

/-! ### C6 -/

/-- C6: record appends the operation to the undo stack, drops the oldest entry
exactly when the stack exceeds the capacity, clears the redo stack, and after
any record pop_redo returns null and leaves the state unchanged. -/
theorem record_truncates_and_clears_redo {α : Type} (limit : Nat) (op : α)
    (s : HistState α) :
    (record limit op s).undo =
      (if limit < (s.undo ++ [op]).length then (s.undo ++ [op]).drop 1
       else s.undo ++ [op]) ∧
    (record limit op s).redo = [] ∧
    pop_redo (record limit op s) = (none, record limit op s) := ⟨rfl, rfl, rfl⟩

/-! ### C7 -/

theorem record_no_drop {α : Type} (limit : Nat) (op : α) (s : HistState α)
    (h : s.undo.length + 1 ≤ limit) :
    record limit op s = ⟨s.undo ++ [op], []⟩ := by
  simp only [record]
  rw [if_neg]
  simp only [List.length_append, List.length_singleton]
  omega

theorem recordAll_under {α : Type} (limit : Nat) :
    ∀ (ops : List α) (s : HistState α), s.undo.length + ops.length ≤ limit →
      recordAll limit ops s = ⟨s.undo ++ ops, if ops.isEmpty then s.redo else []⟩ := by
  intro ops
  induction ops with
  | nil => intro s h; simp [recordAll]
  | cons op rest ih =>
    intro s h
    simp only [List.length_cons] at h
    have h1 : s.undo.length + 1 ≤ limit := by omega
    simp only [recordAll, List.foldl_cons]
    rw [show (record limit op s) = List.foldl (fun s op => record limit op s) (record limit op s) [] from rfl]
    rw [← recordAll, record_no_drop limit op s h1, ih]
    · simp [List.append_assoc, ite_self]
    · show (s.undo ++ [op]).length + rest.length ≤ limit
      simp only [List.length_append, List.length_singleton]
      omega

theorem popUndoTimes_all {α : Type} :
    ∀ (u r : List α), popUndoTimes u.length ⟨u, r⟩ =
      (u.reverse.map some, ⟨[], r ++ u.reverse⟩) := by
  intro u
  induction u using List.reverseRecOn with
  | nil => intro r; simp [popUndoTimes]
  | append_singleton init x ih =>
    intro r
    have hlen : (init ++ [x]).length = init.length + 1 := by simp
    rw [hlen]
    simp only [popUndoTimes, pop_undo, List.getLast?_concat, List.dropLast_concat]
    rw [ih (r ++ [x])]
    simp [List.append_assoc]

theorem popUndoTimes_add {α : Type} (m n : Nat) :
    ∀ (s : HistState α), popUndoTimes (m + n) s =
      ((popUndoTimes m s).1 ++ (popUndoTimes n (popUndoTimes m s).2).1,
       (popUndoTimes n (popUndoTimes m s).2).2) := by
  induction m with
  | zero => intro s; simp [popUndoTimes, Nat.zero_add]
  | succ k ih =>
    intro s
    have : k + 1 + n = (k + n) + 1 := by omega
    rw [this]
    simp only [popUndoTimes]
    rw [ih (pop_undo s).2]
    simp

/-- C7: after recording N ≤ capacity operations into an initially empty
history, N+1 pop_undo calls return exactly the N operations newest-first
followed by null, leaving all N operations pushed onto the redo stack. -/
theorem popUndo_returns_reverse_chronological {α : Type} (limit : Nat)
    (ops : List α) (h : ops.length ≤ limit) :
    popUndoTimes (ops.length + 1) (recordAll limit ops ⟨[], []⟩) =
      (ops.reverse.map some ++ [none], ⟨[], ops.reverse⟩) := by
  have hrec : recordAll limit ops ⟨[], []⟩ =
      ⟨[] ++ ops, if ops.isEmpty then [] else []⟩ :=
    recordAll_under limit ops ⟨[], []⟩ (by simpa using h)
  rw [hrec]
  simp only [List.nil_append, ite_self]
  rw [popUndoTimes_add ops.length 1 ⟨ops, []⟩, popUndoTimes_all ops []]
  simp [popUndoTimes, pop_undo]

theorem popUndo_returns_reverse_chronological_witness :
    (([10, 20, 30] : List Nat).length ≤ 10) ∧
    popUndoTimes (([10, 20, 30] : List Nat).length + 1)
        (recordAll 10 [10, 20, 30] ⟨[], []⟩) =
      (([10, 20, 30] : List Nat).reverse.map some ++ [none],
       ⟨[], ([10, 20, 30] : List Nat).reverse⟩) :=
  ⟨by decide, popUndo_returns_reverse_chronological 10 [10, 20, 30] (by decide)⟩

/-! ### Filesystem lemmas -/

theorem fileFor_default (fs : TixFs) : fileFor fs "default" = fs.dflt := by
  simp [fileFor]

theorem getAssoc_setAssoc_same (l : List (String × FileContent)) (k : String)
    (v : FileContent) : getAssoc (setAssoc l k v) k = some v := by
  induction l with
  | nil => simp [setAssoc, getAssoc]
  | cons kv rest ih =>
    by_cases h : kv.1 = k
    · simp [setAssoc, h, getAssoc]
    · obtain ⟨k', v'⟩ := kv
      simp only at h
      simp [setAssoc, h, getAssoc, ih]

theorem getAssoc_setAssoc_other (l : List (String × FileContent)) (k k' : String)
    (v : FileContent) (h : k' ≠ k) : getAssoc (setAssoc l k v) k' = getAssoc l k' := by
  induction l with
  | nil => simp [setAssoc, getAssoc, h, Ne.symm h]
  | cons kv rest ih =>
    obtain ⟨a, b⟩ := kv
    by_cases hk : a = k
    · subst hk
      simp [setAssoc, getAssoc, h, Ne.symm h]
    · by_cases ha : a = k'
      · subst ha
        simp [setAssoc, getAssoc, hk]
      · simp [setAssoc, getAssoc, hk, ha, ih]

theorem fileFor_setFile_same (fs : TixFs) (ctx : String) (c : FileContent) :
    fileFor (setFile fs ctx c) ctx = c := by
  by_cases h : ctx = "default"
  · subst h; simp [setFile, fileFor]
  · simp [setFile, fileFor, h, getAssoc_setAssoc_same]

theorem fileFor_setFile_other (fs : TixFs) (ctx ctx' : String) (c : FileContent)
    (h : ctx' ≠ ctx) : fileFor (setFile fs ctx c) ctx' = fileFor fs ctx' := by
  by_cases hd : ctx = "default"
  · subst hd
    simp [setFile, fileFor, h]
  · by_cases hd' : ctx' = "default"
    · subst hd'; simp [setFile, fileFor, hd]
    · simp [setFile, fileFor, hd, hd', getAssoc_setAssoc_other _ _ _ _ h]

theorem fileFor_applyWrite_same (fs : TixFs) (ctx : String) (w : Option JVal) :
    fileFor (applyWrite fs ctx w) ctx = contentAfter (fileFor fs ctx) w := by
  cases w with
  | none => rfl
  | some v => simp [applyWrite, contentAfter, fileFor_setFile_same]

theorem fileFor_applyWrite_other (fs : TixFs) (ctx ctx' : String) (w : Option JVal)
    (h : ctx' ≠ ctx) : fileFor (applyWrite fs ctx w) ctx' = fileFor fs ctx' := by
  cases w with
  | none => rfl
  | some v => simp [applyWrite, fileFor_setFile_other _ _ _ _ h]

theorem dflt_setFile_nondefault (fs : TixFs) (ctx : String) (c : FileContent)
    (h : ctx ≠ "default") : (setFile fs ctx c).dflt = fs.dflt := by
  simp [setFile, h]

theorem dflt_applyWrite_nondefault (fs : TixFs) (ctx : String) (w : Option JVal)
    (h : ctx ≠ "default") : (applyWrite fs ctx w).dflt = fs.dflt := by
  cases w with
  | none => rfl
  | some v => simp [applyWrite, dflt_setFile_nondefault _ _ _ h]

theorem contentAfter_ne_missing (c : FileContent) (w : Option JVal)
    (h : c ≠ .missing) : contentAfter c w ≠ .missing := by
  cases w with
  | none => exact h
  | some v => simp [contentAfter]

theorem ensure_eq_self (fs : TixFs) (h : fileFor fs "default" ≠ .missing) :
    ensure_default fs = fs := by
  rcases hc : fileFor fs "default" with _ | _ | v
  · exact absurd hc h
  · simp [ensure_default, hc]
  · simp [ensure_default, hc]

theorem ensure_not_missing (fs : TixFs) :
    fileFor (ensure_default fs) "default" ≠ .missing := by
  rcases hc : fileFor fs "default" with _ | _ | v
  · simp [ensure_default, hc, fileFor_setFile_same]
  · simp [ensure_default, hc]
  · simp [ensure_default, hc]

theorem fileFor_ensure_other (fs : TixFs) (ctx' : String) (h : ctx' ≠ "default") :
    fileFor (ensure_default fs) ctx' = fileFor fs ctx' := by
  rcases hc : fileFor fs "default" with _ | _ | v
  · simp [ensure_default, hc, fileFor_setFile_other _ _ _ _ h]
  · simp [ensure_default, hc]
  · simp [ensure_default, hc]

theorem dflt_ensure_of_ne_missing (fs : TixFs) (h : fileFor fs "default" ≠ .missing) :
    (ensure_default fs).dflt = fs.dflt := by
  rw [ensure_eq_self fs h]

/-! ### Read-stability of the storage layer -/

theorem envelope_read (d : List (String × JVal)) (h1 : hasKey d "tasks" = true)
    (h2 : hasKey d "next_id" = true) :
    ts_read_data (.parsed (.obj d)) = (.obj d, none) := by
  simp [ts_read_data, readText_loads, h1, h2]

theorem read_stable (c : FileContent) :
    ts_read_data (contentAfter c (ts_read_data c).2) = ((ts_read_data c).1, none) := by
  cases c with
  | missing => rfl
  | invalid => rfl
  | parsed raw =>
    cases raw with
    | null => rfl
    | bool b => rfl
    | int n => rfl
    | str s => rfl
    | arr l => rfl
    | obj d =>
      by_cases h : (hasKey d "tasks" && hasKey d "next_id") = true
      · simp [ts_read_data, readText_loads, contentAfter, h]
      · simp [ts_read_data, readText_loads, contentAfter, h]

theorem applyWrite_none (fs : TixFs) (ctx : String) :
    applyWrite fs ctx none = fs := rfl

theorem merge_snd (now : String) (tasks : List Task) (fs1 : TixFs) :
    (merge_default now tasks fs1).2 =
      applyWrite (ensure_default fs1) "default"
        (ts_read_data (fileFor (ensure_default fs1) "default")).2 := by
  simp only [merge_default]
  split
  · rfl
  · split <;> rfl

theorem merge_stable (now : String) (tasks : List Task) (fs1 : TixFs) :
    merge_default now tasks ((merge_default now tasks fs1).2) =
      merge_default now tasks fs1 := by
  rcases hq : ts_read_data (fileFor (ensure_default fs1) "default") with ⟨ddata, dw⟩
  have hsnd : (merge_default now tasks fs1).2 =
      applyWrite (ensure_default fs1) "default" dw := by
    rw [merge_snd, hq]
  have hnm : fileFor (applyWrite (ensure_default fs1) "default" dw) "default" ≠ .missing := by
    rw [fileFor_applyWrite_same]
    exact contentAfter_ne_missing _ _ (ensure_not_missing fs1)
  have hens : ensure_default (applyWrite (ensure_default fs1) "default" dw) =
      applyWrite (ensure_default fs1) "default" dw := ensure_eq_self _ hnm
  have hread2 : ts_read_data
      (fileFor (applyWrite (ensure_default fs1) "default" dw) "default") = (ddata, none) := by
    rw [fileFor_applyWrite_same]
    have h := read_stable (fileFor (ensure_default fs1) "default")
    rw [hq] at h
    simpa using h
  rw [hsnd]
  simp only [merge_default, hens, hread2, hq]
  rcases hji : jIter (jTasks ddata) with e | ditems
  · simp [hji, applyWrite_none]
  · rcases hmx : mapEx (task_from_dict now) ditems with e2 | dtasks <;>
      simp [hji, hmx, applyWrite_none]

theorem merge_dflt_of_envelope (now : String) (tasks : List Task) (fs1 : TixFs)
    (denv : List (String × JVal)) (hd : fs1.dflt = .parsed (.obj denv))
    (h1 : hasKey denv "tasks" = true) (h2 : hasKey denv "next_id" = true) :
    (merge_default now tasks fs1).2 = fs1 := by
  have hnm : fileFor fs1 "default" ≠ .missing := by
    rw [fileFor_default, hd]; simp
  rw [merge_snd, ensure_eq_self fs1 hnm, fileFor_default, hd,
    envelope_read denv h1 h2]
  rfl

/-! ### Load-stability (repeated loads observe and produce the same state) -/

theorem load_tasks_stable (now ctx : String) (fs : TixFs) :
    load_tasks now ctx ((load_tasks now ctx fs).2) = load_tasks now ctx fs := by
  rcases hp : ts_read_data (fileFor fs ctx) with ⟨data, w⟩
  have hread1 : ts_read_data (fileFor (applyWrite fs ctx w) ctx) = (data, none) := by
    rw [fileFor_applyWrite_same]
    have h := read_stable (fileFor fs ctx)
    rw [hp] at h
    simpa using h
  rcases hi : jIter (jTasks data) with e | items
  · have h1 : load_tasks now ctx fs = (.error e, applyWrite fs ctx w) := by
      simp [load_tasks, hp, hi]
    rw [h1]
    simp [load_tasks, hread1, hi, applyWrite_none]
  · rcases hm : mapEx (task_from_dict now) items with e | tasks
    · have h1 : load_tasks now ctx fs = (.error e, applyWrite fs ctx w) := by
        simp [load_tasks, hp, hi, hm]
      rw [h1]
      simp [load_tasks, hread1, hi, hm, applyWrite_none]
    · by_cases hc : ctx = "default"
      · subst hc
        have h1 : load_tasks now "default" fs = (.ok tasks, applyWrite fs "default" w) := by
          simp [load_tasks, hp, hi, hm]
        rw [h1]
        simp [load_tasks, hread1, hi, hm, applyWrite_none]
      · have h1 : load_tasks now ctx fs = merge_default now tasks (applyWrite fs ctx w) := by
          simp [load_tasks, hp, hi, hm, hc]
        rcases hmm : merge_default now tasks (applyWrite fs ctx w) with ⟨r, fs3⟩
        have hfs3 : fs3 = (merge_default now tasks (applyWrite fs ctx w)).2 := by
          rw [hmm]
        have hloc : fileFor fs3 ctx = fileFor (applyWrite fs ctx w) ctx := by
          rw [hfs3, merge_snd]
          rw [fileFor_applyWrite_other _ _ _ _ hc, fileFor_ensure_other _ _ hc]
        have hread2 : ts_read_data (fileFor fs3 ctx) = (data, none) := by
          rw [hloc]; exact hread1
        have h2 : load_tasks now ctx fs3 = merge_default now tasks fs3 := by
          simp [load_tasks, hread2, hi, hm, hc, applyWrite_none]
        rw [h1, hmm]
        show load_tasks now ctx fs3 = (r, fs3)
        rw [h2, hfs3, merge_stable, hmm]

/-! ### C8 -/

/-- C8 counterexample: loadTasks is not idempotent as claimed when an entry
lacks created_at — Task deserialization stamps the current clock into the
missing field, so two consecutive loads of the very same, unmutated store
return different task lists whenever the clock has advanced between them. -/
theorem loadTasks_differs_across_clock_ticks :
    (load_tasks "T1" "default" fsNoStamp).1 ≠ (load_tasks "T2" "default" fsNoStamp).1 := by
  intro h
  have h1 : (load_tasks "T1" "default" fsNoStamp).1 =
      .ok [⟨.int 1, .str "a", .str "medium", .bool false, .str "T1", .null,
            .arr [], .arr [], .arr [], .bool false⟩] := rfl
  have h2 : (load_tasks "T2" "default" fsNoStamp).1 =
      .ok [⟨.int 1, .str "a", .str "medium", .bool false, .str "T2", .null,
            .arr [], .arr [], .arr [], .bool false⟩] := rfl
  rw [h1, h2] at h
  simp only [Except.ok.injEq, List.cons.injEq, Task.mk.injEq, JVal.str.injEq] at h
  exact absurd h.1.2.2.2.2.1 (by decide)

/-- C8 amended: with the ambient clock held fixed, loadTasks is idempotent in
the strongest sense — a second loadTasks call observes exactly the state the
first one left behind and returns the identical result (task list and file
state), including on legacy-format files with missing fields; idempotence can
only fail across clock ticks for entries missing created_at. -/
theorem loadTasks_idempotent_at_fixed_clock (now ctx : String) (fs : TixFs) :
    load_tasks now ctx ((load_tasks now ctx fs).2) = load_tasks now ctx fs :=
  load_tasks_stable now ctx fs

/-! ### C5 -/

theorem validId_true_iff (d : List (String × JVal)) :
    validId d = true ↔
      ∃ w n, lookupKey d "id" = some w ∧ pyIntOf w = some n ∧ 0 < n := by
  unfold validId
  rcases hw : lookupKey d "id" with _ | w
  · simp
  · rcases hn : pyIntOf w with _ | n
    · simp [hn]
    · simp [hn]

theorem upgradeLoop_main :
    ∀ (l : List JVal) (i m : Int) (acc : List JVal),
      (∀ v ∈ l, ∃ d, v = .obj d) → 1 ≤ i → 0 ≤ m →
      ∃ M T, upgradeLoop l i m acc = (M, acc ++ T) ∧ UpgRel i l T ∧
        (∀ v ∈ T, ∃ n, entryId v = some n ∧ 0 < n ∧ n ≤ M) ∧
        m ≤ M ∧ (M = m ∨ ∃ v ∈ T, entryId v = some M) := by
  intro l
  induction l with
  | nil =>
    intro i m acc h hi hm
    exact ⟨m, [], by simp [upgradeLoop], rfl, by simp, le_refl m, Or.inl rfl⟩
  | cons v rest ih =>
    intro i m acc h hi hm
    obtain ⟨d, rfl⟩ := h v (List.mem_cons_self _ _)
    have hrest : ∀ v ∈ rest, ∃ d, v = .obj d :=
      fun v hv => h v (List.mem_cons_of_mem _ hv)
    by_cases hv : validId d
    · obtain ⟨w, n, hw, hn, hpos⟩ := (validId_true_iff d).mp hv
      have hidint : idIntOf d = n := by simp [idIntOf, hw, hn]
      have hent : entryId (.obj d) = some n := by simp [entryId, hw, hn]
      obtain ⟨M, T, hT, hrel, hids, hle, hatt⟩ :=
        ih (i + 1) (max m n) (acc ++ [.obj d]) hrest (by omega)
          (le_trans hm (le_max_left _ _))
      refine ⟨M, .obj d :: T, ?_, ?_, ?_, ?_, ?_⟩
      · rw [show upgradeLoop (.obj d :: rest) i m acc =
            upgradeLoop rest (i + 1) (max m (idIntOf d)) (acc ++ [.obj d]) from by
          simp [upgradeLoop, hv]]
        rw [hidint, hT]
        simp
      · exact ⟨d, T, rfl, by simp [hv], hrel⟩
      · intro u hu
        rcases List.mem_cons.mp hu with hu | hu
        · subst hu
          exact ⟨n, hent, hpos, le_trans (le_max_right m n) hle⟩
        · exact hids u hu
      · exact le_trans (le_max_left m n) hle
      · rcases hatt with hatt | ⟨u, hu, he⟩
        · rcases max_choice m n with hmx | hmx
          · exact Or.inl (hatt.trans hmx)
          · exact Or.inr ⟨.obj d, List.mem_cons_self _ _, by rw [hent, hatt, hmx]⟩
        · exact Or.inr ⟨u, List.mem_cons_of_mem _ hu, he⟩
    · have hidint : idIntOf (dictSet d "id" (.int i)) = i := by
        simp [idIntOf, lookupKey_dictSet_same, pyIntOf]
      have hent : entryId (.obj (dictSet d "id" (.int i))) = some i := by
        simp [entryId, lookupKey_dictSet_same, pyIntOf]
      obtain ⟨M, T, hT, hrel, hids, hle, hatt⟩ :=
        ih (i + 1) (max m i) (acc ++ [.obj (dictSet d "id" (.int i))]) hrest (by omega)
          (le_trans hm (le_max_left _ _))
      refine ⟨M, .obj (dictSet d "id" (.int i)) :: T, ?_, ?_, ?_, ?_, ?_⟩
      · rw [show upgradeLoop (.obj d :: rest) i m acc =
            upgradeLoop rest (i + 1) (max m (idIntOf (dictSet d "id" (.int i))))
              (acc ++ [.obj (dictSet d "id" (.int i))]) from by
          simp [upgradeLoop, hv]]
        rw [hidint, hT]
        simp
      · exact ⟨d, T, rfl, by simp [hv], hrel⟩
      · intro u hu
        rcases List.mem_cons.mp hu with hu | hu
        · subst hu
          exact ⟨i, hent, by omega, le_trans (le_max_right m i) hle⟩
        · exact hids u hu
      · exact le_trans (le_max_left m i) hle
      · rcases hatt with hatt | ⟨u, hu, he⟩
        · rcases max_choice m i with hmx | hmx
          · exact Or.inl (hatt.trans hmx)
          · exact Or.inr ⟨.obj (dictSet d "id" (.int i)), List.mem_cons_self _ _,
              by rw [hent, hatt, hmx]⟩
        · exact Or.inr ⟨u, List.mem_cons_of_mem _ hu, he⟩

/-- C5 counterexample: upgrading the legacy array
`[{"id": 2, "text": "a"}, {"text": "b"}]` assigns the positional id 2 to the
second (id-less) entry, colliding with the first entry's explicit id 2 — the
subsequent load returns tasks whose ids are not unique, against the claim. -/
theorem legacy_upgrade_produces_duplicate_ids :
    (load_tasks "T" "default" fsLegacyDup).1.map (fun ts => ts.map Task.id) =
      .ok [.int 2, .int 2] ∧
    ¬ (([JVal.int 2, JVal.int 2] : List JVal).Nodup) := by
  refine ⟨rfl, ?_⟩
  simp

/-- C5 amended: loading a bare array of task-like dicts upgrades it to the
envelope and persists it, keeping entries with a valid positive integer id
verbatim and assigning the 1-based position to the others, with next_id one
past the maximum id seen; every persisted id is a valid positive integer below
next_id and the envelope re-reads stably, so a subsequent load returns the
same tasks — but the ids are not necessarily unique (an explicit id may
collide with a positionally assigned one). -/
theorem legacy_upgrade_envelope_characterization (now : String) (l : List JVal)
    (h : ∀ v ∈ l, ∃ d, v = .obj d) :
    ∃ M T,
      ts_read_data (.parsed (.arr l)) =
        (.obj [("next_id", .int (M + 1)), ("tasks", .arr T)],
         some (.obj [("next_id", .int (M + 1)), ("tasks", .arr T)])) ∧
      UpgRel 1 l T ∧
      (∀ v ∈ T, ∃ n, entryId v = some n ∧ 0 < n ∧ n < M + 1) ∧
      (M = 0 ∨ ∃ v ∈ T, entryId v = some M) ∧
      ts_read_data (.parsed (.obj [("next_id", .int (M + 1)), ("tasks", .arr T)])) =
        (.obj [("next_id", .int (M + 1)), ("tasks", .arr T)], none) ∧
      (load_tasks now "default" ((load_tasks now "default" ⟨.parsed (.arr l), []⟩).2)).1 =
        (load_tasks now "default" ⟨.parsed (.arr l), []⟩).1 := by
  obtain ⟨M, T, hloop, hrel, hids, _hle, hatt⟩ :=
    upgradeLoop_main l 1 0 [] h (le_refl 1) (le_refl 0)
  refine ⟨M, T, ?_, hrel, ?_, hatt, envelope_read _ rfl rfl,
    congrArg Prod.fst (load_tasks_stable now "default" _)⟩
  · simp [ts_read_data, readText_loads, hloop]
  · intro v hv
    obtain ⟨n, hn, hp, hle'⟩ := hids v hv
    exact ⟨n, hn, hp, by omega⟩

theorem legacy_upgrade_envelope_characterization_witness :
    (∀ v ∈ ([.obj [("text", .str "b")]] : List JVal), ∃ d, v = JVal.obj d) ∧
    (∃ M T,
      ts_read_data (.parsed (.arr ([.obj [("text", .str "b")]] : List JVal))) =
        (.obj [("next_id", .int (M + 1)), ("tasks", .arr T)],
         some (.obj [("next_id", .int (M + 1)), ("tasks", .arr T)])) ∧
      UpgRel 1 ([.obj [("text", .str "b")]] : List JVal) T ∧
      (∀ v ∈ T, ∃ n, entryId v = some n ∧ 0 < n ∧ n < M + 1) ∧
      (M = 0 ∨ ∃ v ∈ T, entryId v = some M) ∧
      ts_read_data (.parsed (.obj [("next_id", .int (M + 1)), ("tasks", .arr T)])) =
        (.obj [("next_id", .int (M + 1)), ("tasks", .arr T)], none) ∧
      (load_tasks "T" "default"
          ((load_tasks "T" "default" ⟨.parsed (.arr ([.obj [("text", .str "b")]] : List JVal)), []⟩).2)).1 =
        (load_tasks "T" "default" ⟨.parsed (.arr ([.obj [("text", .str "b")]] : List JVal)), []⟩).1) := by
  have h : ∀ v ∈ ([.obj [("text", .str "b")]] : List JVal), ∃ d, v = JVal.obj d := by
    intro v hv
    rcases List.mem_singleton.mp hv with rfl
    exact ⟨_, rfl⟩
  exact ⟨h, legacy_upgrade_envelope_characterization "T" _ h⟩

/-! ### C9 -/

theorem pyEqStr_iff (v : JVal) (s : String) : pyEqStr v s = true ↔ v = .str s := by
  cases v <;> simp [pyEqStr]

theorem get_active_save (cs : List Context) (s : CtxState) :
    get_active_context (save_contexts cs s) = get_active_context s := rfl

theorem load_contexts_saved (now : String) (cs : List Context) (s : CtxState) :
    load_contexts now (save_contexts cs s) = .ok cs := by
  simp [load_contexts, save_contexts, ctx_read_data, readText_loads, jContexts,
    hasKey, lookupKey, jIter, mapEx_map_context]

/-- C9: delete_context raises ValueError for "default"; for any other name it
returns false leaving the state untouched when no registered context carries
the name, and when one does it removes every context of that name and
persists the rest; whenever the active pointer named the deleted context it
is reset to "default" (and is left unchanged otherwise), so — under the
registry's own invariants that a "default" context is registered and the
active pointer named an existing context — the active pointer names an
existing context afterwards. -/
theorem delete_context_spec :
    (∀ now s, delete_context now "default" s = (.error .valueError, s)) ∧
    (∀ now name s cs, load_contexts now s = .ok cs → name ≠ "default" →
      ((∀ c ∈ cs, c.name ≠ .str name) → delete_context now name s = (.ok false, s)) ∧
      (∀ c0, c0 ∈ cs → c0.name = .str name →
        (∃ cd ∈ cs, cd.name = .str "default") →
        (∃ ca ∈ cs, ca.name = .str (get_active_context s)) →
        ∃ s', delete_context now name s = (.ok true, s') ∧
          load_contexts now s' = .ok (cs.filter (fun c => ! pyEqStr c.name name)) ∧
          (get_active_context s = name → get_active_context s' = "default") ∧
          (get_active_context s ≠ name → get_active_context s' = get_active_context s) ∧
          ∃ ca', ca' ∈ cs.filter (fun c => ! pyEqStr c.name name) ∧
            ca'.name = .str (get_active_context s'))) := by
  constructor
  · intro now s
    simp [delete_context]
  · intro now name s cs hload hname
    constructor
    · intro hnone
      have hfil : cs.filter (fun c => ! pyEqStr c.name name) = cs := by
        rw [List.filter_eq_self]
        intro c hc
        simp only [Bool.not_eq_true', ← Bool.not_eq_true, pyEqStr_iff]
        exact hnone c hc
      simp [delete_context, hname, hload, hfil]
    · intro c0 hc0 hc0name hdef hact
      have hpc0 : (! pyEqStr c0.name name) = false := by
        simp [pyEqStr_iff, hc0name]
      have hlt : (cs.filter (fun c => ! pyEqStr c.name name)).length < cs.length :=
        filter_length_lt _ cs c0 hc0 hpc0
      by_cases hga : get_active_context s = name
      · obtain ⟨cd, hcd, hcdname⟩ := hdef
        have hcdnew : cd ∈ cs.filter (fun c => ! pyEqStr c.name name) := by
          refine List.mem_filter.mpr ⟨hcd, ?_⟩
          simp only [Bool.not_eq_true', ← Bool.not_eq_true, pyEqStr_iff, hcdname]
          intro hh
          exact hname (JVal.str.inj hh).symm
        have hload1 : load_contexts now
            (save_contexts (cs.filter (fun c => ! pyEqStr c.name name)) s) =
            .ok (cs.filter (fun c => ! pyEqStr c.name name)) :=
          load_contexts_saved now _ s
        have hfind : ((cs.filter (fun c => ! pyEqStr c.name name)).find?
            (fun c => pyEqStr c.name "default")).isSome := by
          rw [List.find?_isSome]
          exact ⟨cd, hcdnew, by simp [pyEqStr_iff, hcdname]⟩
        rcases hfs : (cs.filter (fun c => ! pyEqStr c.name name)).find?
            (fun c => pyEqStr c.name "default") with _ | cfound
        · rw [hfs] at hfind; cases hfind
        · have hset : set_active_context now "default"
              (save_contexts (cs.filter (fun c => ! pyEqStr c.name name)) s) =
              .ok { save_contexts (cs.filter (fun c => ! pyEqStr c.name name)) s with
                    active := some "default" } := by
            simp [set_active_context, get_context, hload1, hfs]
          have htr : get_active_context
              ⟨(save_contexts (cs.filter (fun c => ! pyEqStr c.name name)) s).file,
               some "default"⟩ = "default" := by
            show pyStrip "default" = "default"
            decide
          refine ⟨⟨(save_contexts (cs.filter (fun c => ! pyEqStr c.name name)) s).file,
                   some "default"⟩, ?_, ?_, ?_, ?_, ?_⟩
          · simp [delete_context, hname, hload, hlt, get_active_save, hga, hset]
          · exact load_contexts_saved now _ ⟨s.file, some "default"⟩
          · exact fun _ => htr
          · exact fun h => absurd hga h
          · refine ⟨cd, hcdnew, ?_⟩
            rw [hcdname, htr]
      · obtain ⟨ca, hca, hcaname⟩ := hact
        have hcanew : ca ∈ cs.filter (fun c => ! pyEqStr c.name name) := by
          refine List.mem_filter.mpr ⟨hca, ?_⟩
          simp only [Bool.not_eq_true', ← Bool.not_eq_true, pyEqStr_iff, hcaname]
          intro hh
          exact hga (JVal.str.inj hh)
        refine ⟨save_contexts (cs.filter (fun c => ! pyEqStr c.name name)) s, ?_,
          load_contexts_saved now _ s, fun h => absurd h hga,
          fun _ => get_active_save _ _, ⟨ca, hcanew, ?_⟩⟩
        · simp [delete_context, hname, hload, hlt, get_active_save, hga]
        · rw [get_active_save]
          exact hcaname

theorem delete_context_spec_witness :
    (load_contexts "T" ctxRegWork = .ok [ctxDefaultRec, ctxWorkRec]) ∧
    ("work" ≠ "default") ∧
    (∃ s', delete_context "T" "work" ctxRegWork = (.ok true, s') ∧
      load_contexts "T" s' =
        .ok ([ctxDefaultRec, ctxWorkRec].filter (fun c => ! pyEqStr c.name "work")) ∧
      (get_active_context ctxRegWork = "work" → get_active_context s' = "default") ∧
      (get_active_context ctxRegWork ≠ "work" →
        get_active_context s' = get_active_context ctxRegWork) ∧
      ∃ ca', ca' ∈ [ctxDefaultRec, ctxWorkRec].filter (fun c => ! pyEqStr c.name "work") ∧
        ca'.name = .str (get_active_context s')) := by
  have hload : load_contexts "T" ctxRegWork = .ok [ctxDefaultRec, ctxWorkRec] := rfl
  have hname : "work" ≠ "default" := by decide
  refine ⟨hload, hname, ?_⟩
  exact (delete_context_spec.2 "T" "work" ctxRegWork [ctxDefaultRec, ctxWorkRec]
      hload hname).2
    ctxWorkRec (List.mem_cons_of_mem _ (List.mem_cons_self _ _)) rfl
    ⟨ctxDefaultRec, List.mem_cons_self _ _, rfl⟩
    ⟨ctxWorkRec, List.mem_cons_of_mem _ (List.mem_cons_self _ _), rfl⟩

/-! ### C10 -/

theorem merge_of_envelope (now : String) (tasks : List Task) (fs1 : TixFs)
    (denv : List (String × JVal)) (ds : List JVal) (dts : List Task)
    (hd : fs1.dflt = .parsed (.obj denv))
    (htasks : lookupKey denv "tasks" = some (.arr ds))
    (hnext : hasKey denv "next_id" = true)
    (hds : mapEx (task_from_dict now) ds = .ok dts) :
    merge_default now tasks fs1 =
      (.ok (tasks ++ dts.filter (fun t => isTruthy t.is_global)), fs1) := by
  have hfd : fileFor fs1 "default" = .parsed (.obj denv) := by
    rw [fileFor_default, hd]
  have hens : ensure_default fs1 = fs1 := ensure_eq_self _ (by rw [hfd]; simp)
  have hq : ts_read_data (fileFor fs1 "default") = (.obj denv, none) := by
    rw [hfd]
    exact envelope_read denv (by simp [hasKey, htasks]) hnext
  simp [merge_default, hens, hq, jTasks, htasks, jIter, hds, applyWrite_none]

theorem load_nondefault (now ctx : String) (fs : TixFs)
    (denv : List (String × JVal)) (ds : List JVal) (dts : List Task)
    (hctx : ctx ≠ "default") (hdflt : fs.dflt = .parsed (.obj denv))
    (htasks : lookupKey denv "tasks" = some (.arr ds))
    (hnext : hasKey denv "next_id" = true)
    (hds : mapEx (task_from_dict now) ds = .ok dts) :
    (load_tasks now ctx fs).2.dflt = fs.dflt ∧
    ∀ ts, (load_tasks now ctx fs).1 = .ok ts →
      ∃ loc, ts = loc ++ dts.filter (fun t => isTruthy t.is_global) := by
  rcases hp : ts_read_data (fileFor fs ctx) with ⟨data, w⟩
  have hfs1d : (applyWrite fs ctx w).dflt = fs.dflt :=
    dflt_applyWrite_nondefault fs ctx w hctx
  rcases hi : jIter (jTasks data) with e | items
  · have hLT : load_tasks now ctx fs = (.error e, applyWrite fs ctx w) := by
      simp [load_tasks, hp, hi]
    rw [hLT]
    exact ⟨hfs1d, fun ts h => absurd h (by simp)⟩
  · rcases hm : mapEx (task_from_dict now) items with e | loc
    · have hLT : load_tasks now ctx fs = (.error e, applyWrite fs ctx w) := by
        simp [load_tasks, hp, hi, hm]
      rw [hLT]
      exact ⟨hfs1d, fun ts h => absurd h (by simp)⟩
    · have hd1 : (applyWrite fs ctx w).dflt = .parsed (.obj denv) := by
        rw [hfs1d, hdflt]
      have hLT : load_tasks now ctx fs =
          (.ok (loc ++ dts.filter (fun t => isTruthy t.is_global)), applyWrite fs ctx w) := by
        simp [load_tasks, hp, hi, hm, hctx,
          merge_of_envelope now loc _ denv ds dts hd1 htasks hnext hds]
      rw [hLT]
      refine ⟨hfs1d, fun ts h => ⟨loc, ?_⟩⟩
      exact (Except.ok.inj h).symm

theorem load_merge_mem (now c' : String) (fs : TixFs)
    (denv : List (String × JVal)) (ds : List JVal) (dts : List Task) (tg : Task)
    (hdflt : fs.dflt = .parsed (.obj denv))
    (htasks : lookupKey denv "tasks" = some (.arr ds))
    (hnext : hasKey denv "next_id" = true)
    (hds : mapEx (task_from_dict now) ds = .ok dts)
    (htg : tg ∈ dts) (hglob : isTruthy tg.is_global = true) :
    ∀ ts, (load_tasks now c' fs).1 = .ok ts → tg ∈ ts := by
  by_cases hc : c' = "default"
  · subst hc
    have hp : ts_read_data (fileFor fs "default") = (.obj denv, none) := by
      rw [fileFor_default, hdflt]
      exact envelope_read denv (by simp [hasKey, htasks]) hnext
    have hLT : load_tasks now "default" fs = (.ok dts, fs) := by
      simp [load_tasks, hp, jTasks, htasks, jIter, hds, applyWrite_none]
    rw [hLT]
    intro ts h
    rw [← Except.ok.inj h]
    exact htg
  · rcases hp : ts_read_data (fileFor fs c') with ⟨data, w⟩
    have hd1 : (applyWrite fs c' w).dflt = .parsed (.obj denv) := by
      rw [dflt_applyWrite_nondefault _ _ _ hc, hdflt]
    rcases hi : jIter (jTasks data) with e | items
    · have hLT : load_tasks now c' fs = (.error e, applyWrite fs c' w) := by
        simp [load_tasks, hp, hi]
      rw [hLT]
      exact fun ts h => absurd h (by simp)
    · rcases hm : mapEx (task_from_dict now) items with e | loc
      · have hLT : load_tasks now c' fs = (.error e, applyWrite fs c' w) := by
          simp [load_tasks, hp, hi, hm]
        rw [hLT]
        exact fun ts h => absurd h (by simp)
      · have hLT : load_tasks now c' fs =
            (.ok (loc ++ dts.filter (fun t => isTruthy t.is_global)), applyWrite fs c' w) := by
          simp [load_tasks, hp, hi, hm, hc,
            merge_of_envelope now loc _ denv ds dts hd1 htasks hnext hds]
        rw [hLT]
        intro ts h
        rw [← Except.ok.inj h]
        exact List.mem_append_right _ (List.mem_filter.mpr ⟨htg, hglob⟩)

/-- C10: deleting (from a store scoped to a non-default context) the id of a
global task stored in the default context's file reports success, yet leaves
the default context's file byte-identical, and the global task still appears
in every subsequent successful loadTasks of every context — the reported
deletion has no persistent effect on the global task. -/
theorem delete_global_task_reports_true_but_keeps_task (now ctx : String)
    (gid : Int) (fs : TixFs) (denv : List (String × JVal)) (ds : List JVal)
    (dts : List Task) (tg : Task)
    (hctx : ctx ≠ "default")
    (hdflt : fs.dflt = .parsed (.obj denv))
    (htasks : lookupKey denv "tasks" = some (.arr ds))
    (hnext : hasKey denv "next_id" = true)
    (hds : mapEx (task_from_dict now) ds = .ok dts)
    (htg : tg ∈ dts) (hglob : isTruthy tg.is_global = true)
    (hgid : pyEqInt tg.id gid = true)
    (tasks : List Task) (fs1 : TixFs)
    (hload : load_tasks now ctx fs = (.ok tasks, fs1)) :
    ∃ fs', delete_task now ctx gid fs = (.ok true, fs') ∧
      fs'.dflt = fs.dflt ∧
      ∀ c' ts', (load_tasks now c' fs').1 = .ok ts' → tg ∈ ts' := by
  obtain ⟨hd2, hchar⟩ := load_nondefault now ctx fs denv ds dts hctx hdflt htasks hnext hds
  rw [hload] at hd2
  obtain ⟨loc, hts⟩ := hchar tasks (by rw [hload])
  have htgin : tg ∈ tasks := by
    rw [hts]
    exact List.mem_append_right _ (List.mem_filter.mpr ⟨htg, hglob⟩)
  have hlt : (tasks.filter (fun t => ! pyEqInt t.id gid)).length < tasks.length :=
    filter_length_lt _ tasks tg htgin (by simp [hgid])
  have hdel : delete_task now ctx gid fs =
      (.ok true, save_tasks ctx (tasks.filter (fun t => ! pyEqInt t.id gid)) fs1) := by
    simp [delete_task, hload, hlt]
  have hsave_d : (save_tasks ctx (tasks.filter (fun t => ! pyEqInt t.id gid)) fs1).dflt =
      fs1.dflt := by
    simp only [save_tasks]
    rw [dflt_setFile_nondefault _ _ _ hctx, dflt_applyWrite_nondefault _ _ _ hctx]
  refine ⟨_, hdel, by rw [hsave_d, hd2], ?_⟩
  intro c' ts' h
  refine load_merge_mem now c' _ denv ds dts tg ?_ htasks hnext hds htg hglob ts' h
  rw [hsave_d, hd2, hdflt]

theorem delete_global_task_reports_true_but_keeps_task_witness :
    (("work" : String) ≠ "default") ∧
    (fsGlobalWork.dflt = .parsed (.obj gDenv)) ∧
    (lookupKey gDenv "tasks" =
      some (.arr [.obj [("id", .int 7), ("text", .str "g"), ("is_global", .bool true)]])) ∧
    (hasKey gDenv "next_id" = true) ∧
    (mapEx (task_from_dict "T")
      [.obj [("id", .int 7), ("text", .str "g"), ("is_global", .bool true)]] = .ok [gTask]) ∧
    (gTask ∈ [gTask]) ∧
    (isTruthy gTask.is_global = true) ∧
    (pyEqInt gTask.id 7 = true) ∧
    (load_tasks "T" "work" fsGlobalWork = (.ok [locTask, gTask], fsGlobalWork)) ∧
    (∃ fs', delete_task "T" "work" 7 fsGlobalWork = (.ok true, fs') ∧
      fs'.dflt = fsGlobalWork.dflt ∧
      ∀ c' ts', (load_tasks "T" c' fs').1 = .ok ts' → gTask ∈ ts') :=
  ⟨by decide, rfl, rfl, rfl, rfl, List.mem_singleton.mpr rfl, rfl, rfl, rfl,
   delete_global_task_reports_true_but_keeps_task "T" "work" 7 fsGlobalWork gDenv
     _ [gTask] gTask (by decide) rfl rfl rfl rfl
     (List.mem_singleton.mpr rfl) rfl rfl [locTask, gTask] fsGlobalWork rfl⟩

end Tix
